import Mathlib

/-!
Verification of the bank-transaction reconciliation core of the
STW-Baltyk-Gdynia backend: a shallow embedding, in Lean, of
`backend/app/services/matching.py` and `backend/app/services/bank_import.py`
(with the configuration constants of `backend/app/config/finance_config.py`),
together with theorems settling the frozen claims about that code.

Modelling conventions:
* Python `Decimal` amounts are embedded as `Rat` (both are exact arithmetic).
* Python strings are embedded as `List Char`; `str.lower` is modelled as
  per-character `Char.toLower` (ASCII lowering; all inputs exercised by the
  theorems are ASCII, and the matcher receives already-lowercased text).
* Python dates are embedded as `Nat` ordinals (only their order is used).
* The regular-expression searches of `_find_member` use only patterns of the
  shapes `(?:lit1|...|litk)[:\s]*(\d+)` and `(\d+)/20\d{2}`; these are
  embedded directly with Python `re.search` leftmost-match semantics
  (alternatives tried in order at each position, `[:\s]*` greedy; since the
  separator class and `\d` are disjoint, backtracking inside `[:\s]*` never
  succeeds, so it is not modelled).
-/

/-- Python whitespace class `\s` (ASCII part; all inputs considered are ASCII). -/
def isPyWs (c : Char) : Bool :=
  c == ' ' || c == '\t' || c == '\n' || c == '\r' || c == '\x0b' || c == '\x0c'

/-- `str.lower`, modelled as per-character ASCII lowering. -/
def lowerStr (s : List Char) : List Char :=
  s.map Char.toLower

/-- Exact `List.IsPrefix` test, written out so every definition is executable. -/
def listStartsWith : List Char → List Char → Bool
  | [], _ => true
  | _ :: _, [] => false
  | a :: as, b :: bs => a == b && listStartsWith as bs

/-- Python `pat in s` substring test. -/
def containsSub (pat : List Char) : List Char → Bool
  | [] => pat.isEmpty
  | c :: rest => listStartsWith pat (c :: rest) || containsSub pat rest

/-- Case-insensitive (ASCII) prefix test, for `re.IGNORECASE` literals. -/
def ciStartsWith : List Char → List Char → Bool
  | [], _ => true
  | _ :: _, [] => false
  | a :: as, b :: bs => a.toLower == b.toLower && ciStartsWith as bs

/-- A character matched by the `[:\s]` separator class of the member-id patterns. -/
def isSepChar (c : Char) : Bool :=
  c == ':' || isPyWs c

/-- One position of `re.search` for a pattern `(?:alt1|...|altk)[:\s]*(\d+)`:
alternatives are tried in order, and on a literal hit whose continuation
(separators then at least one digit) fails, the next alternative is tried,
exactly as the backtracking regex engine does.  Returns the captured digit
group. -/
def altCapture (alts : List (List Char)) (s : List Char) : Option (List Char) :=
  match alts with
  | [] => none
  | a :: rest =>
    if ciStartsWith a s then
      let ds := (((s.drop a.length).dropWhile isSepChar).takeWhile Char.isDigit)
      if ds.isEmpty then altCapture rest s else some ds
    else altCapture rest s

/-- Leftmost `re.search` over all start positions for an alternation pattern. -/
def searchCapture (alts : List (List Char)) : List Char → Option (List Char)
  | [] => none
  | c :: rest =>
    match altCapture alts (c :: rest) with
    | some ds => some ds
    | none => searchCapture alts rest

/-- One position of `re.search` for the pattern `(\d+)/20\d{2}`: the greedy
digit group must be followed by `/20` and two digits (a shorter digit group
would be followed by a digit, not `/`, so backtracking cannot help). -/
def slashYearAt (s : List Char) : Option (List Char) :=
  let ds := s.takeWhile Char.isDigit
  if ds.isEmpty then none
  else
    match s.drop ds.length with
    | '/' :: '2' :: '0' :: d1 :: d2 :: _ =>
      if d1.isDigit && d2.isDigit then some ds else none
    | _ => none

/-- Leftmost `re.search` for `(\d+)/20\d{2}`. -/
def slashYearSearch : List Char → Option (List Char)
  | [] => none
  | c :: rest =>
    match slashYearAt (c :: rest) with
    | some ds => some ds
    | none => slashYearSearch rest

/-- `app.models.Member` (the fields used by the matching service). -/
structure Member where
  id : Nat
  /-- nullable string column; `[]` stands for NULL / empty (both falsy). -/
  member_number : List Char
  first_name : List Char
  last_name : List Char
deriving DecidableEq

/-- `Member.full_name`: `f'{self.first_name} {self.last_name}'`. -/
def full_name (m : Member) : List Char :=
  m.first_name ++ ' ' :: m.last_name

/-- `app.models.Fee` (the fields used by the matching service).  `member` is
the ORM relationship object reached as `fee.member`; `fee_type_name` is
`fee.fee_type.name` with `none` for a NULL `fee_type`. -/
structure Fee where
  id : Nat
  member_id : Nat
  amount : Rat
  due_date : Nat
  fee_type_name : Option (List Char)
  member : Member
deriving DecidableEq

/-- `a - b` on `Rat`, written out through `Rat.normalize` (core's `Rat.sub`
is `@[irreducible]` and would block kernel evaluation); `ratSub_eq` below
proves it equal to true subtraction. -/
def ratSub (a b : Rat) : Rat :=
  Rat.normalize (a.num * b.den - b.num * a.den) (a.den * b.den)
    (Nat.mul_ne_zero a.den_nz b.den_nz)

/-- `abs`, decided on the numerator; `ratAbs_eq` below proves it equal to
the absolute value. -/
def ratAbs (q : Rat) : Rat :=
  if q.num < 0 then Rat.neg q else q

/-- `abs(fee.amount - amount) < Decimal('0.01')`: see `amountClose_iff`. -/
def amountClose (a b : Rat) : Bool :=
  Rat.blt (ratAbs (ratSub a b)) (mkRat 1 100)

/-- `amount <= 0`, decided on the numerator; see `ratNonPos_iff`. -/
def ratNonPos (a : Rat) : Bool :=
  decide (a.num ≤ 0)

/-- `fees_by_member[mid]` — the fees of `pending_fees` grouped by `member_id`
(the dict maps each id to its fees in list order); `[]` stands for a missing
key. -/
def feesOf (pending : List Fee) (mid : Nat) : List Fee :=
  pending.filter (fun f => f.member_id == mid)

/-- The insertion-ordered key list of `fees_by_member`. -/
def memberIdKeys (fees : List Fee) : List Nat :=
  fees.foldl (fun ks f => if f.member_id ∈ ks then ks else ks ++ [f.member_id]) []

/-- `members_by_number` lookup: dict comprehension over members with truthy
`member_number` — a later member with the same number overwrites an earlier
one, hence `getLast?`. -/
def lookupByNumber (members : List Member) (num : List Char) : Option Member :=
  (members.filter (fun m => !m.member_number.isEmpty && m.member_number == num)).getLast?

/-- The insertion-ordered key list of `members_by_lastname`
(first occurrence of each lowercased last name). -/
def lastnameKeys (members : List Member) : List (List Char) :=
  members.foldl
    (fun ks m => if lowerStr m.last_name ∈ ks then ks else ks ++ [lowerStr m.last_name]) []

/-- `members_by_lastname[k]`: the members whose lowercased last name is `k`,
in member-list order. -/
def lastnameGroup (members : List Member) (k : List Char) : List Member :=
  members.filter (fun m => lowerStr m.last_name == k)

/-- `MATCHING['member_id_patterns']` of `finance_config.py`
(the config is present, so the in-code default list is not used):
pattern 1 `(?:nr|numer|czlonek|czł|m)[:\s]*(\d+)`. -/
def p1Alts : List (List Char) :=
  [['n', 'r'], ['n', 'u', 'm', 'e', 'r'], ['c', 'z', 'l', 'o', 'n', 'e', 'k'],
   ['c', 'z', 'ł'], ['m']]

/-- pattern 2 `(?:członek|członka)[:\s]*(\d+)`. -/
def p2Alts : List (List Char) :=
  [['c', 'z', 'ł', 'o', 'n', 'e', 'k'], ['c', 'z', 'ł', 'o', 'n', 'k', 'a']]

/-- pattern 4 `STW[:\s]*(\d+)` (case-insensitive). -/
def p4Alts : List (List Char) :=
  [['s', 't', 'w']]

/-- Step 1 of `_find_member`: try the four configured member-id patterns in
order; a pattern whose first match captures an unknown number falls through
to the next pattern (`re.search` finds only the leftmost match). -/
def memberNumberStage (text : List Char) (members : List Member) : Option Member :=
  match (searchCapture p1Alts text).bind (lookupByNumber members) with
  | some m => some m
  | none =>
    match (searchCapture p2Alts text).bind (lookupByNumber members) with
    | some m => some m
    | none =>
      match (slashYearSearch text).bind (lookupByNumber members) with
      | some m => some m
      | none => (searchCapture p4Alts text).bind (lookupByNumber members)

/-- `member.id in fees_by_member and any fee of that member is within 0.01`
— the inner double loop of the last-name strategy. -/
def hasCloseFee (pending : List Fee) (amount : Rat) (m : Member) : Bool :=
  (feesOf pending m.id).any (fun f => amountClose f.amount amount)

/-- The body of the `if lastname in text:` block of `_find_member`, for one
last-name group (nonempty in every reachable call). -/
def lastnameGroupResult (text : List Char) (amount : Rat) (pending : List Fee)
    (group : List Member) : Option (Member × String) :=
  match group.find? (hasCloseFee pending amount) with
  | some m => some (m, "high")
  | none =>
    match group with
    | [] => none
    | [m] => some (m, "medium")
    | m :: _ :: _ =>
      match group.find? (fun x => containsSub (lowerStr x.first_name) text) with
      | some x => some (x, "medium")
      | none => some (m, "low")

/-- Step 2 of `_find_member`: iterate `members_by_lastname.items()` in key
insertion order, skipping keys shorter than 3 characters, and short-circuit
on the first key contained in the text. -/
def lastnameScan (text : List Char) (amount : Rat) (members : List Member)
    (pending : List Fee) : List (List Char) → Option (Member × String)
  | [] => none
  | k :: ks =>
    if k.length < 3 then lastnameScan text amount members pending ks
    else if containsSub k text then
      lastnameGroupResult text amount pending (lastnameGroup members k)
    else lastnameScan text amount members pending ks

def lastnameStage (text : List Char) (amount : Rat) (members : List Member)
    (pending : List Fee) : Option (Member × String) :=
  lastnameScan text amount members pending (lastnameKeys members)

/-- The first last name (of length at least 3) found in the text during the
iteration of step 2. -/
def firstLastnameHit (text : List Char) (members : List Member) : Option (List Char) :=
  (lastnameKeys members).find? (fun k => !(k.length < 3) && containsSub k text)

/-- The `matching_fees` list of step 3 of `_find_member`, built by iterating
`fees_by_member.items()` in key insertion order. -/
def collectMatching (pending : List Fee) (amount : Rat) : List Nat → List Fee
  | [] => []
  | k :: ks =>
    (feesOf pending k).filter (fun f => amountClose f.amount amount)
      ++ collectMatching pending amount ks

def matchingFees (pending : List Fee) (amount : Rat) : List (Member × Fee) :=
  (collectMatching pending amount (memberIdKeys pending)).map (fun f => (f.member, f))

/-- Step 3 of `_find_member`: amount-only matching, accepted only when
exactly one pending fee is within 0.01 of the amount. -/
def amountStage (pending : List Fee) (amount : Rat) : Option (Member × String) :=
  match matchingFees pending amount with
  | [mf] => some (mf.1, "low")
  | _ => none

/-- `_find_member` of `matching.py` (the lookup dicts are derived from the
member and fee lists exactly as `match_transactions` builds them). -/
def find_member (text : List Char) (amount : Rat) (members : List Member)
    (pending : List Fee) : Option Member × String :=
  match memberNumberStage text members with
  | some m => (some m, "high")
  | none =>
    match lastnameStage text amount members pending with
    | some (m, c) => (some m, c)
    | none =>
      match amountStage pending amount with
      | some (m, c) => (some m, c)
      | none => (none, "")

/-- `sorted(fees, key=lambda f: f.due_date)` sorts ascending by due date. -/
def feeLe (f g : Fee) : Prop :=
  f.due_date ≤ g.due_date

instance : DecidableRel feeLe := fun f g => Nat.decLe f.due_date g.due_date

instance : IsTotal Fee feeLe := ⟨fun f g => Nat.le_total f.due_date g.due_date⟩

instance : IsTrans Fee feeLe := ⟨fun _ _ _ h1 h2 => Nat.le_trans h1 h2⟩

/-- `_find_matching_fee` of `matching.py`: sort the member's fees by due date
(oldest first — Python's stable sort, matched by insertion sort) and return
the first fee whose amount is within 0.01, else `None`. -/
def find_matching_fee (amount : Rat) (fees : List Fee) : Option Fee :=
  (List.insertionSort feeLe fees).find? (fun f => amountClose f.amount amount)

/-- A parsed transaction dict as consumed by `match_transactions`: the keys it
reads (`amount`, `description`, `counterparty`) plus the remaining key/value
pairs of the parsed transaction, which the matcher never touches. -/
structure Tx where
  amount : Rat
  description : List Char
  counterparty : List Char
  date : List Char
  bank_reference : List Char
  import_source : List Char
deriving DecidableEq

/-- The output row for one transaction: `tx.copy()` plus the optional
suggestion keys added by `match_transactions` (`none` = key absent). -/
structure Proposal where
  tx : Tx
  suggested_member_id : Option Nat := none
  suggested_member_name : Option (List Char) := none
  match_confidence : Option String := none
  suggested_fee_id : Option Nat := none
  suggested_fee_type : Option (List Char) := none
deriving DecidableEq

/-- `f"{description} {counterparty}"` over the lowercased fields. -/
def combinedText (tx : Tx) : List Char :=
  lowerStr tx.description ++ ' ' :: lowerStr tx.counterparty

/-- The per-transaction body of `match_transactions`. -/
def matchOne (members : List Member) (pending : List Fee) (tx : Tx) : Proposal :=
  if ratNonPos tx.amount then { tx := tx }
  else
    match find_member (combinedText tx) tx.amount members pending with
    | (some m, conf) =>
      let base : Proposal :=
        { tx := tx, suggested_member_id := some m.id,
          suggested_member_name := some (full_name m),
          match_confidence := some conf }
      if (feesOf pending m.id).isEmpty then base
      else
        match find_matching_fee tx.amount (feesOf pending m.id) with
        | some f =>
          { base with suggested_fee_id := some f.id,
                      suggested_fee_type := some (f.fee_type_name.getD []) }
        | none => base
    | (none, _) => { tx := tx }

/-- `match_transactions` of `matching.py`. -/
def match_transactions (txs : List Tx) (members : List Member)
    (pending : List Fee) : List Proposal :=
  txs.map (matchOne members pending)

/-- `MATCHING['confidence_levels']` of `finance_config.py` (present in the
config, so the in-code default dict is not consulted); the Python floats
0.9 / 0.7 / 0.5 are exact decimal literals, embedded as rationals. -/
def confidence_levels : List (String × Rat) :=
  [("high", mkRat 9 10), ("medium", mkRat 7 10), ("low", mkRat 1 2)]

/-- `MATCHING['auto_match_threshold']`. -/
def auto_match_threshold : Rat :=
  mkRat 7 10

/-- `get_match_confidence_value`: `levels.get(confidence, 0.0)`. -/
def get_match_confidence_value (confidence : String) : Rat :=
  (confidence_levels.lookup confidence).getD 0

/-- `should_auto_match`: `get_match_confidence_value(confidence) >= threshold`. -/
def should_auto_match (confidence : String) : Bool :=
  !Rat.blt (get_match_confidence_value confidence) auto_match_threshold

/-! ### Concrete instances used by witnesses and counterexamples -/

def wAnna : Member :=
  { id := 1, member_number := [], first_name := "anna".toList, last_name := "nowak".toList }

def wBarbara : Member :=
  { id := 2, member_number := [], first_name := "barbara".toList, last_name := "nowak".toList }

def wJan123 : Member :=
  { id := 7, member_number := "123".toList, first_name := "jan".toList,
    last_name := "kowalski".toList }

def wCelina : Member :=
  { id := 3, member_number := [], first_name := "celina".toList, last_name := "mazur".toList }

def wBogdan : Member :=
  { id := 4, member_number := [], first_name := "bogdan".toList, last_name := "kowal".toList }

def wFeeA : Fee :=
  { id := 10, member_id := 1, amount := 100, due_date := 5, fee_type_name := none,
    member := wAnna }

def wFeeC : Fee :=
  { id := 30, member_id := 3, amount := 150, due_date := 2, fee_type_name := none,
    member := wCelina }

def wFee21 : Fee :=
  { id := 21, member_id := 4, amount := 150, due_date := 3,
    fee_type_name := some ("Roczna".toList), member := wBogdan }

def wFee22 : Fee :=
  { id := 22, member_id := 4, amount := 150, due_date := 1, fee_type_name := none,
    member := wBogdan }

def wTxKowal : Tx :=
  { amount := 150, description := "skladka kowal".toList, counterparty := [],
    date := [], bank_reference := [], import_source := [] }

def wTxNeg : Tx :=
  { amount := -5, description := "nr 123".toList, counterparty := [],
    date := [], bank_reference := [], import_source := [] }

def wTxNr123 : Tx :=
  { amount := 50, description := "skladka nr 123".toList, counterparty := [],
    date := [], bank_reference := [], import_source := [] }

def wTxGym : Tx :=
  { amount := 50, description := "gym 5 nr 123".toList, counterparty := [],
    date := [], bank_reference := [], import_source := [] }

def wProp : Proposal :=
  { tx := wTxKowal, suggested_member_id := some 4,
    suggested_member_name := some ("bogdan kowal".toList),
    match_confidence := some "high", suggested_fee_id := some 22,
    suggested_fee_type := some [] }

/-! ### `bank_import.py` — decoders

Bytes are embedded as `Nat` values below 256.  The three codecs tried by the
parsers are embedded exactly: strict UTF-8, Windows-1250 (whose five
undefined bytes 0x81, 0x83, 0x88, 0x90, 0x98 make decoding fail), and
ISO-8859-2 (total: every byte decodes).  The high-byte tables are the
code-point columns of the standard Windows-1250 / ISO-8859-2 mappings. -/

/-- A UTF-8 continuation byte. -/
def isCont (b : Nat) : Bool :=
  0x80 ≤ b && b ≤ 0xBF

/-- Allowed second byte of a 3-byte UTF-8 sequence (excludes overlong forms
and surrogates, as Python's strict codec does). -/
def utf8Second3 (b b2 : Nat) : Bool :=
  if b == 0xE0 then 0xA0 ≤ b2 && b2 ≤ 0xBF
  else if b == 0xED then 0x80 ≤ b2 && b2 ≤ 0x9F
  else isCont b2

/-- Allowed second byte of a 4-byte UTF-8 sequence. -/
def utf8Second4 (b b2 : Nat) : Bool :=
  if b == 0xF0 then 0x90 ≤ b2 && b2 ≤ 0xBF
  else if b == 0xF4 then 0x80 ≤ b2 && b2 ≤ 0x8F
  else isCont b2

/-- Strict UTF-8 decoding (`bytes.decode('utf-8')`): `none` on any invalid
sequence. -/
def utf8Decode : List Nat → Option (List Char)
  | [] => some []
  | b :: rest =>
    if b ≤ 0x7F then
      match utf8Decode rest with
      | some cs => some (Char.ofNat b :: cs)
      | none => none
    else if 0xC2 ≤ b && b ≤ 0xDF then
      match rest with
      | b2 :: rest2 =>
        if isCont b2 then
          match utf8Decode rest2 with
          | some cs => some (Char.ofNat ((b % 32) * 64 + b2 % 64) :: cs)
          | none => none
        else none
      | [] => none
    else if 0xE0 ≤ b && b ≤ 0xEF then
      match rest with
      | b2 :: b3 :: rest3 =>
        if utf8Second3 b b2 && isCont b3 then
          match utf8Decode rest3 with
          | some cs => some (Char.ofNat ((b % 16) * 4096 + (b2 % 64) * 64 + b3 % 64) :: cs)
          | none => none
        else none
      | _ => none
    else if 0xF0 ≤ b && b ≤ 0xF4 then
      match rest with
      | b2 :: b3 :: b4 :: rest4 =>
        if utf8Second4 b b2 && isCont b3 && isCont b4 then
          match utf8Decode rest4 with
          | some cs =>
            some (Char.ofNat
              ((b % 8) * 262144 + (b2 % 64) * 4096 + (b3 % 64) * 64 + b4 % 64) :: cs)
          | none => none
        else none
      | _ => none
    else none

/-- Code points of Windows-1250 for bytes 0x80..0xFF (0 marks the five
undefined bytes, which are rejected before this table is consulted). -/
def cp1250Hi : List Nat :=
  [8364, 0, 8218, 0, 8222, 8230, 8224, 8225, 0, 8240, 352, 8249, 346, 356, 381, 377,
   0, 8216, 8217, 8220, 8221, 8226, 8211, 8212, 0, 8482, 353, 8250, 347, 357, 382, 378,
   160, 711, 728, 321, 164, 260, 166, 167, 168, 169, 350, 171, 172, 173, 174, 379,
   176, 177, 731, 322, 180, 181, 182, 183, 184, 261, 351, 187, 317, 733, 318, 380,
   340, 193, 194, 258, 196, 313, 262, 199, 268, 201, 280, 203, 282, 205, 206, 270,
   272, 323, 327, 211, 212, 336, 214, 215, 344, 366, 218, 368, 220, 221, 354, 223,
   341, 225, 226, 259, 228, 314, 263, 231, 269, 233, 281, 235, 283, 237, 238, 271,
   273, 324, 328, 243, 244, 337, 246, 247, 345, 367, 250, 369, 252, 253, 355, 729]

/-- A byte with no assigned Windows-1250 character. -/
def cp1250Undefined (b : Nat) : Bool :=
  b == 0x81 || b == 0x83 || b == 0x88 || b == 0x90 || b == 0x98

def cp1250Char (b : Nat) : Char :=
  if b < 0x80 then Char.ofNat b else Char.ofNat (cp1250Hi.getD (b - 0x80) 0)

/-- `bytes.decode('windows-1250')`: fails exactly on the five unassigned
bytes. -/
def win1250Decode (bs : List Nat) : Option (List Char) :=
  if bs.any cp1250Undefined then none else some (bs.map cp1250Char)

/-- Code points of ISO-8859-2 for bytes 0x80..0xFF (every byte is assigned). -/
def iso2Hi : List Nat :=
  [128, 129, 130, 131, 132, 133, 134, 135, 136, 137, 138, 139, 140, 141, 142, 143,
   144, 145, 146, 147, 148, 149, 150, 151, 152, 153, 154, 155, 156, 157, 158, 159,
   160, 260, 728, 321, 164, 317, 346, 167, 168, 352, 350, 356, 377, 173, 381, 379,
   176, 261, 731, 322, 180, 318, 347, 711, 184, 353, 351, 357, 378, 733, 382, 380,
   340, 193, 194, 258, 196, 313, 262, 199, 268, 201, 280, 203, 282, 205, 206, 270,
   272, 323, 327, 211, 212, 336, 214, 215, 344, 366, 218, 368, 220, 221, 354, 223,
   341, 225, 226, 259, 228, 314, 263, 231, 269, 233, 281, 235, 283, 237, 238, 271,
   273, 324, 328, 243, 244, 337, 246, 247, 345, 367, 250, 369, 252, 253, 355, 729]

def iso2Char (b : Nat) : Char :=
  if b < 0x80 then Char.ofNat b else Char.ofNat (iso2Hi.getD (b - 0x80) 0)

/-- `bytes.decode('iso-8859-2')`: total — every byte sequence decodes. -/
def iso88592Decode (bs : List Nat) : Option (List Char) :=
  some (bs.map iso2Char)

/-- The encoding loop of `parse_csv` (`for encoding in ['utf-8',
'windows-1250', 'iso-8859-2']: ... else: raise ValueError(...)`). -/
def decode_csv (content : List Nat) : Except (List Char) (List Char) :=
  match utf8Decode content with
  | some t => Except.ok t
  | none =>
    match win1250Decode content with
    | some t => Except.ok t
    | none =>
      match iso88592Decode content with
      | some t => Except.ok t
      | none => Except.error ("Nie można odczytać pliku - nieznane kodowanie".toList)

/-- The decode step of `parse_mt940`: UTF-8, then Windows-1250; a failure of
the second decode escapes the inner `try` and is caught by the function's
outer `except`, so it surfaces as the wrapped `ValueError` below. -/
def decode_mt940 (content : List Nat) : Except (List Char) (List Char) :=
  match utf8Decode content with
  | some t => Except.ok t
  | none =>
    match win1250Decode content with
    | some t => Except.ok t
    | none => Except.error ("UnicodeDecodeError".toList)

/-- `parse_mt940`, with the external `mt940` library's parsing and the
per-transaction field extraction abstracted as `lib` (the library is not
part of this repository; only its error-or-result behaviour matters here).
Any error — decode or library — is wrapped into the Polish `ValueError`
message, never propagated raw. -/
def parse_mt940 {α : Type} (lib : List Char → Except (List Char) (List α))
    (content : List Nat) : Except (List Char) (List α) :=
  match decode_mt940 content with
  | Except.error e => Except.error (("Błąd parsowania MT940: ".toList) ++ e)
  | Except.ok t =>
    match lib t with
    | Except.error e => Except.error (("Błąd parsowania MT940: ".toList) ++ e)
    | Except.ok txs => Except.ok txs

/-! ### `bank_import.py` — CSV machinery

The `csv` module is modelled for unquoted input (none of the Santander
headers or the inputs considered contain quote characters): a row is a line
split on the chosen delimiter, and `DictReader` zips the header fields with
the row values (missing values behave as absent keys, extra values are
dropped, blank lines are skipped). -/

/-- Split on a separator character, keeping empty parts. -/
def splitOnChar (d : Char) : List Char → List (List Char)
  | [] => [[]]
  | c :: rest =>
    match splitOnChar d rest with
    | [] => [[]]
    | p :: ps => if c == d then [] :: p :: ps else (c :: p) :: ps

/-- Text lines as the `io.StringIO` iteration sees them: a trailing final
newline produces no extra empty line. -/
def dropLastEmpty : List (List Char) → List (List Char)
  | [] => []
  | [x] => if x.isEmpty then [] else [x]
  | x :: y :: rest => x :: dropLastEmpty (y :: rest)

def stripCR (line : List Char) : List Char :=
  match line.reverse with
  | '\r' :: rest => rest.reverse
  | _ => line

def textLines (t : List Char) : List (List Char) :=
  (dropLastEmpty (splitOnChar '\n' t)).map stripCR

/-- `csv.DictReader(...).fieldnames` for a delimiter: the first line split on
it; `[]` stands for the `None` of an empty file (both falsy). -/
def headerFields (t : List Char) (d : Char) : List (List Char) :=
  match textLines t with
  | [] => []
  | h :: _ => splitOnChar d h

def csvDelims : List Char :=
  [';', ',', '\t']

/-- The delimiter loop of `parse_csv`: first delimiter whose header has more
than one field; when none qualifies the loop falls through with the *last*
tried reader (tab) still bound — there is no `else: raise`. -/
def chooseDelimiter (t : List Char) : Char :=
  (csvDelims.find? (fun d => decide (1 < (headerFields t d).length))).getD '\t'

/-- `str.strip()`. -/
def stripChars (s : List Char) : List Char :=
  ((s.dropWhile isPyWs).reverse.dropWhile isPyWs).reverse

/-- Row dict lookup; duplicate header names overwrite left-to-right, so the
last binding wins, as in the dict `DictReader` builds. -/
def lookupAssoc (row : List (List Char × List Char)) (key : List Char) :
    Option (List Char) :=
  ((row.filter (fun kv => kv.1 == key)).getLast?).map (fun kv => kv.2)

/-- `_find_column_value`: first listed column name present with a truthy
value wins, and its value is stripped. -/
def find_column_value (row : List (List Char × List Char)) :
    List (List Char) → List Char
  | [] => []
  | c :: cs =>
    match lookupAssoc row c with
    | some v => if v.isEmpty then find_column_value row cs else stripChars v
    | none => find_column_value row cs

def date_columns : List (List Char) :=
  [("Data operacji".toList), ("Data księgowania".toList), ("Data".toList),
   ("Data waluty".toList)]

def amount_columns : List (List Char) :=
  [("Kwota".toList), ("Kwota operacji".toList), ("Wartość".toList)]

def description_columns : List (List Char) :=
  [("Opis operacji".toList), ("Tytuł".toList), ("Szczegóły".toList), ("Opis".toList)]

def counterparty_columns : List (List Char) :=
  [("Nadawca/Odbiorca".toList), ("Kontrahent".toList), ("Nazwa kontrahenta".toList)]

def reference_columns : List (List Char) :=
  [("Numer referencyjny".toList), ("Referencja".toList), ("Nr referencyjny".toList)]

def digitsToNat (s : List Char) : Nat :=
  s.foldl (fun a c => a * 10 + (c.toNat - '0'.toNat)) 0

def allDigits (s : List Char) : Bool :=
  !s.isEmpty && s.all Char.isDigit

def isLeap (y : Nat) : Bool :=
  y % 4 == 0 && (y % 100 != 0 || y % 400 == 0)

def daysInMonth (y m : Nat) : Nat :=
  if m == 2 then (if isLeap y then 29 else 28)
  else if m == 4 || m == 6 || m == 9 || m == 11 then 30
  else 31

/-- `datetime.strptime` calendar validation (year 1..9999). -/
def validYMD (y m d : Nat) : Bool :=
  1 ≤ y && y ≤ 9999 && 1 ≤ m && m ≤ 12 && 1 ≤ d && d ≤ daysInMonth y m

/-- One `strptime` attempt for a three-part numeric date format: `%Y` is
exactly four digits, `%m` and `%d` one or two, the whole string must be
consumed, and the date must be a real calendar date. -/
def tryYMD (sep : Char) (yearFirst : Bool) (s : List Char) :
    Option (Nat × Nat × Nat) :=
  match splitOnChar sep s with
  | [a, b, c] =>
    let ys := if yearFirst then a else c
    let ds := if yearFirst then c else a
    if allDigits ys && ys.length == 4 && allDigits b && b.length ≤ 2
        && allDigits ds && ds.length ≤ 2 then
      let y := digitsToNat ys
      let m := digitsToNat b
      let d := digitsToNat ds
      if validYMD y m d then some (y, m, d) else none
    else none
  | _ => none

def padZero (k : Nat) (s : List Char) : List Char :=
  List.replicate (k - s.length) '0' ++ s

/-- `date.isoformat()`. -/
def isoFormat : Nat × Nat × Nat → List Char
  | (y, m, d) =>
    padZero 4 (Nat.toDigits 10 y) ++ '-' :: padZero 2 (Nat.toDigits 10 m)
      ++ '-' :: padZero 2 (Nat.toDigits 10 d)

/-- `_parse_date`: strip, then try the five formats in order; `[]` is the
empty string returned on failure. -/
def parse_date (s0 : List Char) : List Char :=
  let s := stripChars s0
  match tryYMD '-' true s with
  | some ymd => isoFormat ymd
  | none =>
    match tryYMD '-' false s with
    | some ymd => isoFormat ymd
    | none =>
      match tryYMD '.' false s with
      | some ymd => isoFormat ymd
      | none =>
        match tryYMD '/' false s with
        | some ymd => isoFormat ymd
        | none =>
          match tryYMD '.' true s with
          | some ymd => isoFormat ymd
          | none => []

/-- A character of the class `[PLN\sZŁ]` under `re.IGNORECASE`. -/
def isAmountNoise (c : Char) : Bool :=
  isPyWs c || c.toLower == 'p' || c.toLower == 'l' || c.toLower == 'n'
    || c.toLower == 'z' || c == 'ł' || c == 'Ł'

/-- `Decimal(str)` on the plain `[sign] digits [. digits]` grammar (the
special forms NaN/Infinity/exponents never arise from bank amounts). -/
def parseDecimalStr (s : List Char) : Option Rat :=
  let signed := match s with
    | '-' :: r => (true, r)
    | '+' :: r => (false, r)
    | r => (false, r)
  let ip := signed.2.takeWhile Char.isDigit
  let rest := signed.2.drop ip.length
  match rest with
  | [] =>
    if ip.isEmpty then none
    else
      let n : Int := Int.ofNat (digitsToNat ip)
      some (mkRat (if signed.1 then -n else n) 1)
  | '.' :: fr =>
    let fp := fr.takeWhile Char.isDigit
    if fp.length != fr.length then none
    else if ip.isEmpty && fp.isEmpty then none
    else
      let n : Int := Int.ofNat (digitsToNat ip * 10 ^ fp.length + digitsToNat fp)
      some (mkRat (if signed.1 then -n else n) (10 ^ fp.length))
  | _ => none

/-- `_parse_amount`: strip, drop currency noise, comma to dot, `Decimal`. -/
def parse_amount (s0 : List Char) : Option Rat :=
  let s1 := stripChars s0
  let s2 := s1.filter (fun c => !isAmountNoise c)
  let s3 := s2.map (fun c => if c == ',' then '.' else c)
  parseDecimalStr s3

/-- One pass of `str.replace` (non-overlapping, left to right), driven by a
fuel bounded by the text length so that it stays structurally recursive. -/
def replaceSubFuel (pat rep : List Char) : Nat → List Char → List Char
  | 0, s => s
  | _ + 1, [] => []
  | n + 1, c :: rest =>
    if !pat.isEmpty && listStartsWith pat (c :: rest) then
      rep ++ replaceSubFuel pat rep n (rest.drop (pat.length - 1))
    else
      c :: replaceSubFuel pat rep n rest

def replaceSub (pat rep s : List Char) : List Char :=
  replaceSubFuel pat rep s.length s

/-- `str.split()` with no argument: maximal runs of non-whitespace. -/
def wsTokens (s : List Char) : List (List Char) :=
  (s.foldr
    (fun c acc =>
      if isPyWs c then [] :: acc
      else
        match acc with
        | [] => [[c]]
        | t :: ts => (c :: t) :: ts)
    []).filter (fun t => !t.isEmpty)

def mt940Prefixes : List (List Char) :=
  [("/ROC/".toList), ("/RFB/".toList), ("/ID/".toList), ("/BNF/".toList),
   ("/ORD/".toList)]

/-- `_clean_description`: collapse whitespace, blank out known MT940 tags,
strip. -/
def clean_description (s : List Char) : List Char :=
  if s.isEmpty then []
  else
    let d1 := List.intercalate [' '] (wsTokens s)
    let d2 := mt940Prefixes.foldl (fun acc p => replaceSub p [' '] acc) d1
    stripChars d2

/-- One parsed CSV transaction dict. -/
structure CsvTx where
  date : List Char
  amount : Rat
  description : List Char
  counterparty : List Char
  bank_reference : List Char
  import_source : List Char
deriving DecidableEq

/-- The body of `for row in reader:` for one row dict. -/
def rowToTx (row : List (List Char × List Char)) : Option CsvTx :=
  if row.isEmpty then none
  else
    let txdate := find_column_value row date_columns
    let amount := find_column_value row amount_columns
    let description := find_column_value row description_columns
    let counterparty := find_column_value row counterparty_columns
    let reference := find_column_value row reference_columns
    if txdate.isEmpty || amount.isEmpty then none
    else
      let pd := parse_date txdate
      if pd.isEmpty then none
      else
        match parse_amount amount with
        | none => none
        | some pa =>
          some { date := pd, amount := pa,
                 description := clean_description description,
                 counterparty := counterparty,
                 bank_reference := reference,
                 import_source := ("csv".toList) }

/-- The row dicts the chosen reader yields after the header line. -/
def rowsFor (t : List Char) (d : Char) : List (List (List Char × List Char)) :=
  ((textLines t).drop 1).filterMap
    (fun line =>
      if line.isEmpty then none
      else some (List.zip (headerFields t d) (splitOnChar d line)))

/-- `parse_csv` of `bank_import.py`. -/
def parse_csv (content : List Nat) : Except (List Char) (List CsvTx) :=
  match decode_csv content with
  | Except.error e => Except.error (("Błąd parsowania CSV: ".toList) ++ e)
  | Except.ok t =>
    let d := chooseDelimiter t
    Except.ok ((rowsFor t d).filterMap rowToTx)

/-- The raw bytes of an ASCII string. -/
def strBytes (s : String) : List Nat :=
  s.toList.map Char.toNat

theorem ratSub_eq (a b : Rat) : ratSub a b = a - b := by
  rw [Rat.sub_def]; rfl

theorem ratAbs_eq (q : Rat) : ratAbs q = |q| := by
  unfold ratAbs
  split
  · rw [abs_of_neg (Rat.num_neg.mp (by assumption))]; rfl
  · rw [abs_of_nonneg (Rat.num_nonneg.mp (by omega))]

/-- The embedded closeness test is exactly the source's
`abs(fee.amount - amount) < Decimal('0.01')`. -/
theorem amountClose_iff (a b : Rat) :
    amountClose a b = true ↔ |a - b| < (1 : Rat) / 100 := by
  unfold amountClose
  rw [ratSub_eq, ratAbs_eq]
  have h1 : (mkRat 1 100 : Rat) = (1 : Rat) / 100 := by norm_num [mkRat]
  rw [h1]
  exact Eq.to_iff rfl

theorem ratNonPos_iff (a : Rat) : ratNonPos a = true ↔ a ≤ 0 := by
  unfold ratNonPos
  simp only [decide_eq_true_eq]
  constructor
  · intro h
    by_contra hc
    exact absurd (Rat.num_pos.mpr (lt_of_not_le hc)) (by omega)
  · intro h
    by_contra hc
    exact absurd (Rat.num_pos.mp (by omega)) (not_lt.mpr h)

/-- The Boolean in `should_auto_match` is the source's `value >= threshold`. -/
theorem should_auto_match_iff (c : String) :
    should_auto_match c = true ↔ auto_match_threshold ≤ get_match_confidence_value c := by
  unfold should_auto_match
  rw [Bool.not_eq_true']
  have h : Rat.blt (get_match_confidence_value c) auto_match_threshold = false ↔
      ¬ get_match_confidence_value c < auto_match_threshold := by
    rw [Bool.eq_false_iff]
    exact not_congr (Eq.to_iff rfl)
  rw [h, not_lt]

/-! ### Infrastructure lemmas -/

/-- Step 2's scan is the first acceptable last-name key, fed to the group body. -/
theorem lastnameScan_eq (text : List Char) (amount : Rat) (members : List Member)
    (pending : List Fee) :
    ∀ ks : List (List Char),
      lastnameScan text amount members pending ks =
        (ks.find? (fun k => !(k.length < 3) && containsSub k text)).bind
          (fun k => lastnameGroupResult text amount pending (lastnameGroup members k)) := by
  intro ks
  induction ks with
  | nil => rfl
  | cons k ks ih =>
    by_cases h3 : k.length < 3
    · simp only [lastnameScan, if_pos h3, List.find?_cons, decide_eq_true h3,
        Bool.not_true, Bool.false_and, ih]
    · by_cases hc : containsSub k text = true
      · simp only [lastnameScan, if_neg h3, if_pos hc, List.find?_cons,
          decide_eq_false h3, Bool.not_false, hc, Bool.true_and, Option.bind_some]
        simp
      · simp only [lastnameScan, if_neg h3, if_neg hc, List.find?_cons,
          decide_eq_false h3, Bool.not_false, Bool.true_and,
          Bool.eq_false_iff.mpr hc, ih]
        simp

theorem lastnameStage_eq (text : List Char) (amount : Rat) (members : List Member)
    (pending : List Fee) :
    lastnameStage text amount members pending =
      (firstLastnameHit text members).bind
        (fun k => lastnameGroupResult text amount pending (lastnameGroup members k)) := by
  unfold lastnameStage firstLastnameHit
  exact lastnameScan_eq text amount members pending (lastnameKeys members)

/-- Confidence produced by step 3 is always the string "low". -/
theorem amountStage_conf (pending : List Fee) (amount : Rat) (m : Member) (c : String)
    (h : amountStage pending amount = some (m, c)) : c = "low" := by
  unfold amountStage at h
  rcases hmf : matchingFees pending amount with _ | ⟨mf, rest⟩
  · rw [hmf] at h; exact absurd h (by simp)
  · rcases rest with _ | ⟨mf2, rest2⟩
    · rw [hmf] at h
      simp only [Option.some.injEq] at h
      exact (Prod.mk.injEq _ _ _ _).mp h.symm |>.2
    · rw [hmf] at h; exact absurd h (by simp)

/-- The fold building the key list of a grouping dict keeps its accumulator. -/
theorem keysFold_sub (fees : List Fee) :
    ∀ (ks0 : List Nat) (k : Nat), k ∈ ks0 →
      k ∈ fees.foldl
        (fun ks f => if f.member_id ∈ ks then ks else ks ++ [f.member_id]) ks0 := by
  induction fees with
  | nil => intro ks0 k hk; simpa using hk
  | cons f fees ih =>
    intro ks0 k hk
    simp only [List.foldl_cons]
    by_cases hf : f.member_id ∈ ks0
    · rw [if_pos hf]; exact ih ks0 k hk
    · rw [if_neg hf]; exact ih _ k (List.mem_append_left _ hk)

/-- Every grouped id ends up among the keys. -/
theorem keysFold_cover (fees : List Fee) :
    ∀ (ks0 : List Nat) (f : Fee), f ∈ fees →
      f.member_id ∈ fees.foldl
        (fun ks g => if g.member_id ∈ ks then ks else ks ++ [g.member_id]) ks0 := by
  induction fees with
  | nil => intro ks0 f hf; exact absurd hf (List.not_mem_nil f)
  | cons g fees ih =>
    intro ks0 f hf
    simp only [List.foldl_cons]
    rcases List.mem_cons.mp hf with hf | hf
    · subst hf
      by_cases hg : f.member_id ∈ ks0
      · rw [if_pos hg]; exact keysFold_sub fees ks0 _ hg
      · rw [if_neg hg]
        exact keysFold_sub fees _ _ (List.mem_append_right _ (List.mem_singleton_self _))
    · by_cases hg : g.member_id ∈ ks0
      · rw [if_pos hg]; exact ih ks0 f hf
      · rw [if_neg hg]; exact ih _ f hf

/-- The key list of a grouping dict has no duplicates. -/
theorem keysFold_nodup (fees : List Fee) :
    ∀ ks0 : List Nat, ks0.Nodup →
      (fees.foldl
        (fun ks f => if f.member_id ∈ ks then ks else ks ++ [f.member_id]) ks0).Nodup := by
  induction fees with
  | nil => intro ks0 h; simpa using h
  | cons f fees ih =>
    intro ks0 h
    simp only [List.foldl_cons]
    by_cases hf : f.member_id ∈ ks0
    · rw [if_pos hf]; exact ih ks0 h
    · rw [if_neg hf]
      refine ih _ ?_
      simp only [List.nodup_append, List.nodup_singleton, true_and]
      exact ⟨h, by simpa using hf⟩

theorem memberIdKeys_nodup (fees : List Fee) : (memberIdKeys fees).Nodup :=
  keysFold_nodup fees [] List.nodup_nil

theorem memberIdKeys_cover (fees : List Fee) (f : Fee) (hf : f ∈ fees) :
    f.member_id ∈ memberIdKeys fees :=
  keysFold_cover fees [] f hf

/-- Removing the fees of one id does not change the groups of other ids. -/
theorem collectMatching_filter_ne (pending : List Fee) (a : Rat) (k : Nat) :
    ∀ ks : List Nat, (∀ k2 ∈ ks, k2 ≠ k) →
      collectMatching (pending.filter (fun f => !(f.member_id == k))) a ks =
        collectMatching pending a ks := by
  intro ks
  induction ks with
  | nil => intro _; rfl
  | cons k2 ks ih =>
    intro hne
    have hk2 : k2 ≠ k := hne k2 (List.mem_cons_self k2 ks)
    have hgroup : feesOf (pending.filter (fun f => !(f.member_id == k))) k2 =
        feesOf pending k2 := by
      unfold feesOf
      rw [List.filter_filter]
      refine List.filter_congr ?_
      intro f _
      by_cases hf : f.member_id = k2
      · simp [hf, hk2]
      · simp [hf]
    unfold collectMatching
    rw [hgroup, ih (fun k3 hk3 => hne k3 (List.mem_cons_of_mem k2 hk3))]

/-- Iterating the grouping dict and filtering each group is a permutation of
filtering the original fee list. -/
theorem collectMatching_perm (a : Rat) :
    ∀ (ks : List Nat) (l : List Fee), ks.Nodup → (∀ f ∈ l, f.member_id ∈ ks) →
      (collectMatching l a ks).Perm
        (l.filter (fun f => amountClose f.amount a)) := by
  intro ks
  induction ks with
  | nil =>
    intro l _ hcov
    have : l = [] := List.eq_nil_iff_forall_not_mem.mpr
      (fun f hf => by simpa using hcov f hf)
    subst this
    rfl
  | cons k ks ih =>
    intro l hnd hcov
    have hknotin : k ∉ ks := (List.nodup_cons.mp hnd).1
    have hndks : ks.Nodup := (List.nodup_cons.mp hnd).2
    have hne : ∀ k2 ∈ ks, k2 ≠ k := fun k2 hk2 => fun he => hknotin (he ▸ hk2)
    have hstep : collectMatching l a (k :: ks) =
        (feesOf l k).filter (fun f => amountClose f.amount a)
          ++ collectMatching l a ks := rfl
    have hcov2 : ∀ f ∈ l.filter (fun f => !(f.member_id == k)), f.member_id ∈ ks := by
      intro f hf
      rcases List.mem_filter.mp hf with ⟨hfl, hfk⟩
      rcases List.mem_cons.mp (hcov f hfl) with h | h
      · exact absurd (by simpa using h) (by simpa using hfk)
      · exact h
    have hperm2 := ih (l.filter (fun f => !(f.member_id == k))) hndks hcov2
    have e1 : (feesOf l k).filter (fun f => amountClose f.amount a) =
        (l.filter (fun f => amountClose f.amount a)).filter (fun f => f.member_id == k) := by
      unfold feesOf
      rw [List.filter_filter, List.filter_filter]
      exact List.filter_congr (fun f _ => Bool.and_comm _ _)
    have e2 : (l.filter (fun f => !(f.member_id == k))).filter
          (fun f => amountClose f.amount a) =
        (l.filter (fun f => amountClose f.amount a)).filter
          (fun f => !(f.member_id == k)) := by
      rw [List.filter_filter, List.filter_filter]
      exact List.filter_congr (fun f _ => Bool.and_comm _ _)
    rw [hstep, e1, ← collectMatching_filter_ne l a k ks hne]
    refine List.Perm.trans (List.Perm.append_left _ ?_)
      (List.filter_append_perm (fun f => f.member_id == k)
        (l.filter (fun f => amountClose f.amount a)))
    rw [← e2]
    exact hperm2

/-- The amount-only candidate list is, up to order, the filter of the pending
fees by amount closeness. -/
theorem matchingFees_perm (pending : List Fee) (a : Rat) :
    (collectMatching pending a (memberIdKeys pending)).Perm
      (pending.filter (fun f => amountClose f.amount a)) :=
  collectMatching_perm a (memberIdKeys pending) pending
    (memberIdKeys_nodup pending) (fun f hf => memberIdKeys_cover pending f hf)

/-- On a due-date-sorted list, the first hit of `find?` has minimal due date
among all hits. -/
theorem find_sorted_min (p : Fee → Bool) :
    ∀ l : List Fee, List.Sorted feeLe l → ∀ f : Fee, l.find? p = some f →
      p f = true ∧ f ∈ l ∧ ∀ g ∈ l, p g = true → f.due_date ≤ g.due_date := by
  intro l
  induction l with
  | nil => intro _ f h; exact absurd h (by simp)
  | cons x xs ih =>
    intro hs f h
    rcases List.sorted_cons.mp hs with ⟨hall, hs2⟩
    by_cases hp : p x = true
    · rw [List.find?_cons_of_pos _ hp, Option.some.injEq] at h
      subst h
      refine ⟨hp, List.mem_cons_self _ _, ?_⟩
      intro g hg _
      rcases List.mem_cons.mp hg with hg | hg
      · rw [hg]
      · exact hall g hg
    · rw [List.find?_cons_of_neg _ hp] at h
      rcases ih hs2 f h with ⟨h1, h2, h3⟩
      refine ⟨h1, List.mem_cons_of_mem x h2, ?_⟩
      intro g hg hpg
      rcases List.mem_cons.mp hg with hg | hg
      · exact absurd (hg ▸ hpg) hp
      · exact h3 g hg hpg

/-- A successful `_find_matching_fee` returns a fee of the given list that is
amount-close and of minimal due date among the amount-close ones. -/
theorem find_matching_fee_some (amount : Rat) (fees : List Fee) (f : Fee)
    (h : find_matching_fee amount fees = some f) :
    f ∈ fees ∧ amountClose f.amount amount = true ∧
      ∀ g ∈ fees, amountClose g.amount amount = true → f.due_date ≤ g.due_date := by
  unfold find_matching_fee at h
  have hsorted := List.sorted_insertionSort feeLe fees
  have hperm := List.perm_insertionSort feeLe fees
  rcases find_sorted_min _ _ hsorted f h with ⟨h1, h2, h3⟩
  exact ⟨hperm.mem_iff.mp h2, h1,
    fun g hg hpg => h3 g (hperm.mem_iff.mpr hg) hpg⟩

/-- `_find_matching_fee` suggests nothing when no fee is amount-close. -/
theorem find_matching_fee_none (amount : Rat) (fees : List Fee)
    (h : ∀ g ∈ fees, amountClose g.amount amount = false) :
    find_matching_fee amount fees = none := by
  unfold find_matching_fee
  rw [List.find?_eq_none]
  intro g hg
  rw [h g ((List.perm_insertionSort feeLe fees).mem_iff.mp hg)]
  simp

/-- Every branch of the per-transaction body copies the transaction. -/
theorem matchOne_tx (members : List Member) (pending : List Fee) (tx : Tx) :
    (matchOne members pending tx).tx = tx := by
  unfold matchOne
  split
  · rfl
  · rcases h : find_member (combinedText tx) tx.amount members pending with ⟨mo, conf⟩
    rcases mo with _ | m
    · rfl
    · simp only []
      split
      · rfl
      · split <;> rfl

/-- A non-positive amount passes through with no annotation. -/
theorem matchOne_nonpos (members : List Member) (pending : List Fee) (tx : Tx)
    (h : ratNonPos tx.amount = true) :
    matchOne members pending tx = { tx := tx } := by
  unfold matchOne
  rw [if_pos h]

/-- No member found: the transaction passes through unannotated. -/
theorem matchOne_nomatch (members : List Member) (pending : List Fee) (tx : Tx)
    (hpos : ratNonPos tx.amount = false) (c : String)
    (h : find_member (combinedText tx) tx.amount members pending = (none, c)) :
    matchOne members pending tx = { tx := tx } := by
  unfold matchOne
  rw [if_neg (by simp [hpos]), h]

/-- A found member: the three member keys are set, and the fee keys are
exactly the result of `_find_matching_fee` over that member's fee group. -/
theorem matchOne_member (members : List Member) (pending : List Fee) (tx : Tx)
    (m : Member) (conf : String)
    (hpos : ratNonPos tx.amount = false)
    (h : find_member (combinedText tx) tx.amount members pending = (some m, conf)) :
    matchOne members pending tx =
      match find_matching_fee tx.amount (feesOf pending m.id) with
      | some f =>
        { tx := tx, suggested_member_id := some m.id,
          suggested_member_name := some (full_name m),
          match_confidence := some conf,
          suggested_fee_id := some f.id,
          suggested_fee_type := some (f.fee_type_name.getD []) }
      | none =>
        { tx := tx, suggested_member_id := some m.id,
          suggested_member_name := some (full_name m),
          match_confidence := some conf } := by
  unfold matchOne
  rw [if_neg (by simp [hpos]), h]
  dsimp only
  by_cases he : (feesOf pending m.id).isEmpty
  · have hnil : feesOf pending m.id = [] := by
      cases hfe : feesOf pending m.id
      · rfl
      · rw [hfe] at he; exact absurd he (by simp)
    rw [if_pos he, hnil]
    rfl
  · rw [if_neg he]

/-- With no member-number hit and a first last-name hit `L`, `_find_member`
is decided by the `if lastname in text:` block for `L`'s group. -/
theorem find_member_hit (text : List Char) (amount : Rat) (members : List Member)
    (pending : List Fee) (L : List Char)
    (h0 : memberNumberStage text members = none)
    (hL : firstLastnameHit text members = some L) :
    find_member text amount members pending =
      match lastnameGroupResult text amount pending (lastnameGroup members L) with
      | some (m, c) => (some m, c)
      | none =>
        match amountStage pending amount with
        | some (m, c) => (some m, c)
        | none => (none, "") := by
  unfold find_member
  rw [h0, lastnameStage_eq, hL]
  rfl

/-- With no member-number hit and no last-name hit, `_find_member` is decided
by the amount-only step. -/
theorem find_member_nohit (text : List Char) (amount : Rat) (members : List Member)
    (pending : List Fee)
    (h0 : memberNumberStage text members = none)
    (hN : firstLastnameHit text members = none) :
    find_member text amount members pending =
      match amountStage pending amount with
      | some (m, c) => (some m, c)
      | none => (none, "") := by
  unfold find_member
  rw [h0, lastnameStage_eq, hN]
  rfl

/-- The group body yields confidence "high" exactly for the first member of
the group that owns an amount-close open fee. -/
theorem lastnameGroupResult_high_iff (text : List Char) (amount : Rat)
    (pending : List Fee) (group : List Member) (m : Member) :
    lastnameGroupResult text amount pending group = some (m, "high") ↔
      group.find? (hasCloseFee pending amount) = some m := by
  unfold lastnameGroupResult
  cases hfind : group.find? (hasCloseFee pending amount) with
  | some m2 =>
    constructor
    · intro h
      simp only [Option.some.injEq, Prod.mk.injEq] at h
      rw [h.1]
    · intro h
      simp only [Option.some.injEq] at h
      rw [h]
  | none =>
    constructor
    · intro h
      cases group with
      | nil => exact absurd h (by simp)
      | cons x xs =>
        cases xs with
        | nil => simp only [Option.some.injEq, Prod.mk.injEq] at h; exact absurd h.2 (by decide)
        | cons y ys =>
          cases hfn : List.find? (fun x => containsSub (lowerStr x.first_name) text)
              (x :: y :: ys) with
          | some z =>
            rw [hfn] at h
            simp only [Option.some.injEq, Prod.mk.injEq] at h
            exact absurd h.2 (by decide)
          | none =>
            rw [hfn] at h
            simp only [Option.some.injEq, Prod.mk.injEq] at h
            exact absurd h.2 (by decide)
    · intro h
      exact absurd h (by simp)

/-- C1 (amended): with no member-number hit and first found last name `L`,
the claimed positive direction holds — a unique owner of `L` with an
amount-close open fee is selected at "high" — but "high" is in fact
assigned exactly when the *first* member of `L`'s group owning an
amount-close open fee exists, with no uniqueness requirement. -/
theorem lastname_strategy_high (text : List Char) (amount : Rat)
    (members : List Member) (pending : List Fee) (L : List Char)
    (h0 : memberNumberStage text members = none)
    (hL : firstLastnameHit text members = some L) :
    (∀ m : Member, lastnameGroup members L = [m] →
        hasCloseFee pending amount m = true →
        find_member text amount members pending = (some m, "high"))
    ∧ ∀ m : Member,
        find_member text amount members pending = (some m, "high") ↔
          (lastnameGroup members L).find? (hasCloseFee pending amount) = some m := by
  have hiff : ∀ m : Member,
      find_member text amount members pending = (some m, "high") ↔
        (lastnameGroup members L).find? (hasCloseFee pending amount) = some m := by
    intro m
    rw [find_member_hit text amount members pending L h0 hL]
    cases hg : lastnameGroupResult text amount pending (lastnameGroup members L) with
    | some mc =>
      rcases mc with ⟨m2, c2⟩
      rw [← lastnameGroupResult_high_iff text amount pending (lastnameGroup members L) m]
      constructor
      · intro h
        simp only [Prod.mk.injEq, Option.some.injEq] at h
        rw [hg, h.1, h.2]
      · intro h
        rw [hg] at h
        simp only [Option.some.injEq, Prod.mk.injEq] at h
        rw [h.1, h.2]
    | none =>
      rw [← lastnameGroupResult_high_iff text amount pending (lastnameGroup members L) m]
      rw [hg]
      constructor
      · intro h
        cases ha : amountStage pending amount with
        | some mc =>
          rcases mc with ⟨m2, c2⟩
          have hc2 : c2 = "low" := amountStage_conf pending amount m2 c2 ha
          rw [ha] at h
          simp only [Prod.mk.injEq, Option.some.injEq] at h
          exact absurd (hc2 ▸ h.2) (by decide)
        | none =>
          rw [ha] at h
          simp only [Prod.mk.injEq] at h
          exact absurd h.1 (by simp)
      · intro h
        exact absurd h (by simp)
  refine ⟨?_, hiff⟩
  intro m hgroup hfee
  rw [hiff m, hgroup]
  rw [List.find?_cons_of_pos _ hfee]

/-- C2: with no member-number hit and no last-name hit, `_find_member`
selects the owner of the unique amount-close pending fee at "low", and
selects nobody when the number of amount-close pending fees differs from
one. -/
theorem amount_only_strategy (text : List Char) (amount : Rat)
    (members : List Member) (pending : List Fee)
    (h0 : memberNumberStage text members = none)
    (hN : firstLastnameHit text members = none) :
    (∀ f : Fee, pending.filter (fun g => amountClose g.amount amount) = [f] →
        find_member text amount members pending = (some f.member, "low"))
    ∧ ((pending.filter (fun g => amountClose g.amount amount)).length ≠ 1 →
        find_member text amount members pending = (none, "")) := by
  rw [find_member_nohit text amount members pending h0 hN]
  constructor
  · intro f hf
    have hcol : collectMatching pending amount (memberIdKeys pending) = [f] :=
      List.perm_singleton.mp (hf ▸ matchingFees_perm pending amount)
    have hmf : matchingFees pending amount = [(f.member, f)] := by
      unfold matchingFees
      rw [hcol]
      rfl
    unfold amountStage
    rw [hmf]
  · intro hlen
    have hcl : (collectMatching pending amount (memberIdKeys pending)).length ≠ 1 := by
      rw [(matchingFees_perm pending amount).length_eq]
      exact hlen
    have hmfl : (matchingFees pending amount).length ≠ 1 := by
      unfold matchingFees
      rw [List.length_map]
      exact hcl
    cases hmf : matchingFees pending amount with
    | nil => unfold amountStage; rw [hmf]
    | cons x xs =>
      cases xs with
      | nil => rw [hmf] at hmfl; exact absurd rfl hmfl
      | cons y ys => unfold amountStage; rw [hmf]

/-- C3 (amended): a found last name shared by at least two members, none of
whom owns an amount-close open fee, yields the *first* member whose first
name occurs in the text at "medium" (even if several first names occur),
and the first member of the group at "low" when no first name occurs. -/
theorem lastname_strategy_ambiguous (text : List Char) (amount : Rat)
    (members : List Member) (pending : List Fee) (L : List Char)
    (h0 : memberNumberStage text members = none)
    (hL : firstLastnameHit text members = some L)
    (hnofee : (lastnameGroup members L).find? (hasCloseFee pending amount) = none)
    (hmulti : 2 ≤ (lastnameGroup members L).length) :
    (∀ m : Member,
        (lastnameGroup members L).find?
            (fun x => containsSub (lowerStr x.first_name) text) = some m →
        find_member text amount members pending = (some m, "medium"))
    ∧ ((lastnameGroup members L).find?
          (fun x => containsSub (lowerStr x.first_name) text) = none →
        ∀ (m : Member) (rest : List Member), lastnameGroup members L = m :: rest →
        find_member text amount members pending = (some m, "low")) := by
  rw [find_member_hit text amount members pending L h0 hL]
  cases hg : lastnameGroup members L with
  | nil => rw [hg] at hmulti; exact absurd hmulti (by simp)
  | cons x xs =>
    cases xs with
    | nil => rw [hg] at hmulti; exact absurd hmulti (by simp)
    | cons y ys =>
      rw [hg] at hnofee
      constructor
      · intro m hfn
        unfold lastnameGroupResult
        rw [hnofee]
        dsimp only
        rw [hfn]
      · intro hfn m rest hrest
        have hm : m = x := by
          have h2 := (List.cons.injEq x (y :: ys) m rest).mp hrest
          exact h2.1.symm
        unfold lastnameGroupResult
        rw [hnofee]
        dsimp only
        rw [hfn, hm]

/-- C4: in every proposal, the confidence key is absent exactly when the
member key is absent, and a suggested fee is a pending fee whose id is the
suggested fee id and whose `member_id` is the suggested member. -/
theorem proposal_invariant (txs : List Tx) (members : List Member)
    (pending : List Fee) :
    ∀ p ∈ match_transactions txs members pending,
      (p.match_confidence = none ↔ p.suggested_member_id = none)
      ∧ (p.suggested_fee_id ≠ none →
          ∃ f ∈ pending, p.suggested_fee_id = some f.id ∧
            p.suggested_member_id = some f.member_id) := by
  intro p hp
  rcases List.mem_map.mp hp with ⟨tx, _, hpm⟩
  by_cases hpos : ratNonPos tx.amount = true
  · rw [← hpm, matchOne_nonpos members pending tx hpos]
    exact ⟨by simp, fun h => absurd rfl h⟩
  · rw [Bool.not_eq_true] at hpos
    rcases hfm : find_member (combinedText tx) tx.amount members pending with ⟨mo, conf⟩
    cases mo with
    | none =>
      rw [← hpm, matchOne_nomatch members pending tx hpos conf hfm]
      exact ⟨by simp, fun h => absurd rfl h⟩
    | some m =>
      rw [← hpm, matchOne_member members pending tx m conf hpos hfm]
      cases hff : find_matching_fee tx.amount (feesOf pending m.id) with
      | some f =>
        rcases find_matching_fee_some tx.amount (feesOf pending m.id) f hff
          with ⟨hmem, _, _⟩
        rcases List.mem_filter.mp hmem with ⟨hfp, hfid⟩
        refine ⟨by simp, fun _ => ⟨f, hfp, rfl, ?_⟩⟩
        have : f.member_id = m.id := by simpa using hfid
        rw [this]
      | none =>
        exact ⟨by simp, fun h => absurd rfl h⟩

/-- C5: a suggested fee belongs to the suggested member's pending group, is
amount-close to the transaction amount, and has the earliest due date among
that group's amount-close fees; if no fee of the member's group is
amount-close, no fee is suggested. -/
theorem suggested_fee_exact_earliest (txs : List Tx) (members : List Member)
    (pending : List Fee) :
    ∀ p ∈ match_transactions txs members pending, ∀ mid : Nat,
      p.suggested_member_id = some mid →
      (∀ fid : Nat, p.suggested_fee_id = some fid →
          ∃ f ∈ feesOf pending mid, f.id = fid ∧
            amountClose f.amount p.tx.amount = true ∧
            ∀ g ∈ feesOf pending mid, amountClose g.amount p.tx.amount = true →
              f.due_date ≤ g.due_date)
      ∧ ((∀ g ∈ feesOf pending mid, amountClose g.amount p.tx.amount = false) →
          p.suggested_fee_id = none) := by
  intro p hp mid hmid
  rcases List.mem_map.mp hp with ⟨tx, _, hpm⟩
  by_cases hpos : ratNonPos tx.amount = true
  · rw [← hpm, matchOne_nonpos members pending tx hpos] at hmid
    exact absurd hmid (by simp)
  · rw [Bool.not_eq_true] at hpos
    rcases hfm : find_member (combinedText tx) tx.amount members pending with ⟨mo, conf⟩
    cases mo with
    | none =>
      rw [← hpm, matchOne_nomatch members pending tx hpos conf hfm] at hmid
      exact absurd hmid (by simp)
    | some m =>
      cases hff : find_matching_fee tx.amount (feesOf pending m.id) with
      | some f =>
        rw [← hpm, matchOne_member members pending tx m conf hpos hfm, hff] at hmid ⊢
        dsimp only at hmid ⊢
        have hmidm : mid = m.id := by simpa using hmid.symm
        subst hmidm
        rcases find_matching_fee_some tx.amount (feesOf pending m.id) f hff
          with ⟨hmem, hclose, hmin⟩
        constructor
        · intro fid hfid
          have hfidf : fid = f.id := by simpa using hfid.symm
          subst hfidf
          exact ⟨f, hmem, rfl, hclose, hmin⟩
        · intro hnone
          exact absurd (hnone f hmem) (by simp [hclose])
      | none =>
        rw [← hpm, matchOne_member members pending tx m conf hpos hfm, hff] at hmid ⊢
        dsimp only at hmid ⊢
        have hmidm : mid = m.id := by simpa using hmid.symm
        subst hmidm
        exact ⟨fun fid hfid => absurd hfid (by simp), fun _ => rfl⟩

/-- C9: the output mirrors the input order one-to-one; each proposal carries
its transaction unchanged, and a non-positive amount receives no suggestion
keys at all. -/
theorem match_transactions_frame (txs : List Tx) (members : List Member)
    (pending : List Fee) :
    (match_transactions txs members pending).length = txs.length
    ∧ ∀ (i : Nat) (p : Proposal),
        (match_transactions txs members pending)[i]? = some p →
        txs[i]? = some p.tx
        ∧ (p.tx.amount ≤ 0 →
            p.suggested_member_id = none ∧ p.suggested_member_name = none ∧
            p.match_confidence = none ∧ p.suggested_fee_id = none ∧
            p.suggested_fee_type = none) := by
  refine ⟨List.length_map txs (matchOne members pending), ?_⟩
  intro i p hp
  rw [match_transactions, List.getElem?_map] at hp
  cases htx : txs[i]? with
  | none => rw [htx] at hp; exact absurd hp (by simp)
  | some tx =>
    rw [htx] at hp
    have hp2 : matchOne members pending tx = p := by simpa using hp
    have htxp : p.tx = tx := by rw [← hp2, matchOne_tx]
    constructor
    · rw [htxp]
    · intro hle
      have hnp : ratNonPos tx.amount = true := (ratNonPos_iff tx.amount).mpr (htxp ▸ hle)
      rw [← hp2, matchOne_nonpos members pending tx hnp]
      exact ⟨rfl, rfl, rfl, rfl, rfl⟩

/-- C6 (amended): whenever the member-number stage resolves on the combined
text of a positive-amount transaction — the leftmost match of the first
successful configured pattern captures a known member number — that member
is suggested at "high", regardless of the amount and of all fees. -/
theorem member_number_high (txs : List Tx) (members : List Member)
    (pending : List Fee) (i : Nat) (tx : Tx) (m : Member)
    (htx : txs[i]? = some tx)
    (hpos : ratNonPos tx.amount = false)
    (hm : memberNumberStage (combinedText tx) members = some m) :
    ∃ p : Proposal, (match_transactions txs members pending)[i]? = some p ∧
      p.suggested_member_id = some m.id ∧ p.match_confidence = some "high" := by
  have hfm : find_member (combinedText tx) tx.amount members pending =
      (some m, "high") := by
    unfold find_member
    rw [hm]
  refine ⟨matchOne members pending tx, ?_, ?_⟩
  · rw [match_transactions, List.getElem?_map, htx]
    rfl
  · rw [matchOne_member members pending tx m "high" hpos hfm]
    cases find_matching_fee tx.amount (feesOf pending m.id) with
    | some f => exact ⟨rfl, rfl⟩
    | none => exact ⟨rfl, rfl⟩

/-- C10: a confidence string with no entry in the configured table — the
matcher's empty string for "no member" included — scores 0.0 and is never
auto-matched (the configured threshold 0.7 being positive). -/
theorem unknown_confidence_no_auto_match :
    (∀ c : String, confidence_levels.lookup c = none →
        get_match_confidence_value c = 0 ∧ should_auto_match c = false)
    ∧ (0 : Rat) < auto_match_threshold
    ∧ ∀ (text : List Char) (amount : Rat) (members : List Member)
        (pending : List Fee) (c : String),
        find_member text amount members pending = (none, c) →
        should_auto_match c = false := by
  have hval : ∀ c : String, confidence_levels.lookup c = none →
      get_match_confidence_value c = 0 := by
    intro c hc
    unfold get_match_confidence_value
    rw [hc]
    rfl
  have hauto : ∀ c : String, confidence_levels.lookup c = none →
      should_auto_match c = false := by
    intro c hc
    unfold should_auto_match
    rw [hval c hc]
    decide
  refine ⟨fun c hc => ⟨hval c hc, hauto c hc⟩, by decide, ?_⟩
  intro text amount members pending c h
  have hc : c = "" := by
    unfold find_member at h
    split at h
    · exact absurd h (by simp)
    · split at h
      · exact absurd h (by simp)
      · split at h
        · exact absurd h (by simp)
        · exact (((Prod.mk.injEq _ _ _ _).mp h).2).symm
  rw [hc]
  exact hauto "" (by rfl)

/-! ### Witnesses and counterexamples -/

/-- C1 witness: unique owner of the found last name with an amount-close fee,
selected at "high". -/
theorem lastname_strategy_high_witness :
    memberNumberStage ("nowak ".toList) [wAnna] = none ∧
    find_member ("nowak ".toList) 100 [wAnna] [wFeeA] = (some wAnna, "high") :=
  ⟨by decide,
   (lastname_strategy_high ("nowak ".toList) 100 [wAnna] [wFeeA] ("nowak".toList)
      (by decide) (by decide)).1 wAnna (by decide) (by decide)⟩

/-- C1 counterexample: two members share the last name "nowak", there is no
member-number hit, and the matcher still returns "high" — refuting the
claim's "only under the exactly-one-member condition" part. -/
theorem lastname_strategy_high_cex :
    memberNumberStage ("nowak ".toList) [wAnna, wBarbara] = none ∧
    (lastnameGroup [wAnna, wBarbara] ("nowak".toList)).length = 2 ∧
    find_member ("nowak ".toList) 100 [wAnna, wBarbara] [wFeeA] = (some wAnna, "high") :=
  ⟨by decide, by decide, by decide⟩

/-- C2 witness: a unique amount-close pending fee with no textual signal is
matched to its member at "low". -/
theorem amount_only_strategy_witness :
    List.filter (fun g => amountClose g.amount 150) [wFeeC] = [wFeeC] ∧
    find_member (" ".toList) 150 [wCelina] [wFeeC] = (some wCelina, "low") :=
  ⟨by decide,
   (amount_only_strategy (" ".toList) 150 [wCelina] [wFeeC] (by decide) (by decide)).1
     wFeeC (by decide)⟩

/-- C3 witness: an ambiguous last name disambiguated by a first-name hit is
returned at "medium". -/
theorem lastname_strategy_ambiguous_witness :
    find_member ("anna nowak ".toList) 77 [wAnna, wBarbara] [] = (some wAnna, "medium") :=
  (lastname_strategy_ambiguous ("anna nowak ".toList) 77 [wAnna, wBarbara] []
      ("nowak".toList) (by decide) (by decide) (by decide) (by decide)).1 wAnna (by decide)

/-- C3 counterexample: both first names occur in the text, so no member is
uniquely disambiguated, yet the matcher returns "medium" (for the first) —
refuting the claim's "only if exactly one is disambiguated". -/
theorem lastname_strategy_ambiguous_cex :
    memberNumberStage ("anna barbara nowak ".toList) [wAnna, wBarbara] = none ∧
    ((lastnameGroup [wAnna, wBarbara] ("nowak".toList)).filter
        (fun m => containsSub (lowerStr m.first_name)
          ("anna barbara nowak ".toList))).length = 2 ∧
    find_member ("anna barbara nowak ".toList) 77 [wAnna, wBarbara] []
      = (some wAnna, "medium") :=
  ⟨by decide, by decide, by decide⟩

/-- C4 witness: a fully annotated proposal from a real run satisfies the
invariant. -/
theorem proposal_invariant_witness :
    wProp ∈ match_transactions [wTxKowal] [wBogdan] [wFee21, wFee22] ∧
    ((wProp.match_confidence = none ↔ wProp.suggested_member_id = none) ∧
      (wProp.suggested_fee_id ≠ none →
        ∃ f ∈ [wFee21, wFee22], wProp.suggested_fee_id = some f.id ∧
          wProp.suggested_member_id = some f.member_id)) :=
  ⟨by decide, proposal_invariant [wTxKowal] [wBogdan] [wFee21, wFee22] wProp (by decide)⟩

/-- C5 witness: among two equal-amount fees the earlier-due one (id 22,
due 1, not id 21, due 3) is suggested. -/
theorem suggested_fee_exact_earliest_witness :
    ∃ f ∈ feesOf [wFee21, wFee22] 4, f.id = 22 ∧
      amountClose f.amount wProp.tx.amount = true ∧
      ∀ g ∈ feesOf [wFee21, wFee22] 4,
        amountClose g.amount wProp.tx.amount = true → f.due_date ≤ g.due_date :=
  (suggested_fee_exact_earliest [wTxKowal] [wBogdan] [wFee21, wFee22] wProp (by decide)
      4 (by decide)).1 22 (by decide)

/-- C6 witness: a clean "nr 123" description resolves to member number 123 at
"high". -/
theorem member_number_high_witness :
    ∃ p : Proposal, (match_transactions [wTxNr123] [wJan123] [])[0]? = some p ∧
      p.suggested_member_id = some wJan123.id ∧ p.match_confidence = some "high" :=
  member_number_high [wTxNr123] [wJan123] [] 0 wTxNr123 wJan123 (by decide) (by decide)
    (by decide)

/-- C6 counterexample: the description "gym 5 nr 123" contains "nr 123" and
member 123 exists, yet no member is suggested — the first pattern's leftmost
match captures "5" (via the `m` alternative) and the stage falls through. -/
theorem member_number_high_cex :
    containsSub ("nr 123".toList) wTxGym.description = true ∧
    wJan123.member_number = "123".toList ∧
    (0 : Rat) < wTxGym.amount ∧
    (match_transactions [wTxGym] [wJan123] []).map (fun p => p.suggested_member_id)
      = [none] :=
  ⟨by decide, by decide, by decide, by decide⟩

/-- C9 witness: a negative-amount transaction passes through unannotated. -/
theorem match_transactions_frame_witness :
    (match_transactions [wTxNeg] [] []).length = 1 ∧
    ([wTxNeg] : List Tx)[0]? = some ({ tx := wTxNeg } : Proposal).tx ∧
    ({ tx := wTxNeg } : Proposal).suggested_member_id = none ∧
    ({ tx := wTxNeg } : Proposal).suggested_fee_id = none := by
  have h := match_transactions_frame [wTxNeg] [] []
  have h2 := h.2 0 { tx := wTxNeg } (by decide)
  have h3 := h2.2 ((ratNonPos_iff _).mp (by decide))
  exact ⟨h.1, h2.1, h3.1, h3.2.2.2.1⟩

/-- C10 witness: the empty confidence string scores 0.0 and is not
auto-matched. -/
theorem unknown_confidence_no_auto_match_witness :
    get_match_confidence_value "" = 0 ∧ should_auto_match "" = false :=
  unknown_confidence_no_auto_match.1 "" (by decide)

/-- C7: a single-column file defeats every tried delimiter, and `parse_csv`
then returns an empty success instead of the `ParseError` the specification
demands — the delimiter loop has no `else: raise`, so it falls through with
the tab reader and every row is silently skipped. -/
theorem parse_csv_silent_empty :
    csvDelims.all
      (fun d => decide ((headerFields ("foo\nbar\n".toList) d).length ≤ 1)) = true
    ∧ parse_csv (strBytes "foo\nbar\n") = Except.ok [] :=
  ⟨by decide, rfl⟩

/-- C8: both parsers use the first encoding of their prioritized list that
decodes; when every attempted encoding fails, parsing fails with the wrapped
`ValueError` — never an unhandled exception and never an empty success.  For
`parse_csv` the final attempt (ISO-8859-2) is total, so its all-fail branch
is vacuous; for `parse_mt940` (UTF-8 then Windows-1250 only) the failure
branch is reachable and always yields the wrapped error. -/
theorem encoding_priority_and_failure {α : Type} (content : List Nat)
    (lib : List Char → Except (List Char) (List α)) :
    (∀ t, utf8Decode content = some t →
        decode_csv content = Except.ok t ∧ decode_mt940 content = Except.ok t)
    ∧ (utf8Decode content = none → ∀ t, win1250Decode content = some t →
        decode_csv content = Except.ok t ∧ decode_mt940 content = Except.ok t)
    ∧ (utf8Decode content = none → win1250Decode content = none → ∀ t,
        iso88592Decode content = some t → decode_csv content = Except.ok t)
    ∧ (utf8Decode content = none → win1250Decode content = none →
        (∃ e, parse_mt940 lib content = Except.error e)
        ∧ ∀ txs : List α, parse_mt940 lib content ≠ Except.ok txs)
    ∧ (utf8Decode content = none → win1250Decode content = none →
        iso88592Decode content = none →
        ∃ e, parse_csv content = Except.error e) := by
  refine ⟨?_, ?_, ?_, ?_, ?_⟩
  · intro t ht
    unfold decode_csv decode_mt940
    rw [ht]
    exact ⟨rfl, rfl⟩
  · intro hu t hw
    unfold decode_csv decode_mt940
    rw [hu, hw]
    exact ⟨rfl, rfl⟩
  · intro hu hw t hi
    unfold decode_csv
    rw [hu, hw, hi]
  · intro hu hw
    have hdec : decode_mt940 content = Except.error ("UnicodeDecodeError".toList) := by
      unfold decode_mt940
      rw [hu, hw]
    constructor
    · refine ⟨("Błąd parsowania MT940: ".toList) ++ ("UnicodeDecodeError".toList), ?_⟩
      unfold parse_mt940
      rw [hdec]
    · intro txs hok
      unfold parse_mt940 at hok
      rw [hdec] at hok
      exact absurd hok (by simp)
  · intro hu hw hi
    refine ⟨("Błąd parsowania CSV: ".toList)
      ++ ("Nie można odczytać pliku - nieznane kodowanie".toList), ?_⟩
    unfold parse_csv decode_csv
    rw [hu, hw, hi]

/-- C8 witness: the byte 0x81 fails UTF-8 and Windows-1250; the MT940 parser
therefore fails with a wrapped error while the CSV parser decodes it via
ISO-8859-2. -/
theorem encoding_priority_witness :
    utf8Decode [0x81] = none ∧ win1250Decode [0x81] = none ∧
    decode_csv [0x81] = Except.ok [Char.ofNat 0x81] ∧
    ∃ e, parse_mt940 (fun _ => Except.ok ([] : List Nat)) [0x81] = Except.error e := by
  have h := encoding_priority_and_failure [0x81] (fun _ => Except.ok ([] : List Nat))
  exact ⟨by decide, by decide,
    h.2.2.1 (by decide) (by decide) [Char.ofNat 0x81] rfl,
    (h.2.2.2.1 (by decide) (by decide)).1⟩
